import Mathlib

/-!
Shallow embedding of `src/Ego Vehicle/EgoTrajPrediction.py` (class
`EgoTrajPrediction`): the constant-acceleration (CA) and constant-turn-rate
(CTRV) forward-propagation models, the model selector of `run`, and the
trajectory validator `predictionValidator`.

Modelling conventions:
* Python floats are idealised as exact rationals (`ℚ`); claims about
  floating-point tolerance are read as exact statements over `ℚ`.
* The external math library is abstracted: `math.cos`, `math.sin` and the
  square roots taken by `math.sqrt` / `np.linalg.norm` enter as function
  parameters `mcos msin msqrt : ℚ → ℚ`, exactly at the call sites where the
  source calls them.
* Rational division by zero is total in Lean (`x / 0 = 0`) whereas Python
  raises; every theorem about code paths that divide (`vel / yawRate` in the
  CTRV Jacobian, `T / dt` in the validator) therefore carries the
  corresponding non-zero hypothesis.
* The reference log `odometry_data.npy` (an `N×2` array of positions, loaded
  at import time) and the global cursor `VALIDATOR_COUNTER` are threaded as
  explicit values.
-/

namespace EgoTraj

/-- State vectors are real (here: rational) vectors of fixed dimension,
6 for the CA model and 5 for the CTRV model. -/
abbrev Vec (n : ℕ) := Fin n → ℚ

/-- Square covariance / transition matrices matching the state dimension. -/
abbrev Mat (n : ℕ) := Matrix (Fin n) (Fin n) ℚ

/-- The five scalar quantities the core reads from `self.last_odom_msg`
(`run`, lines 189–203): position, planar velocity, yaw (obtained from the
quaternion by the external `tf` collaborator) and yaw rate.  A fresh ROS
`Odometry()` message is zero-initialised. -/
structure Odometry where
  x : ℚ
  y : ℚ
  vx : ℚ
  vy : ℚ
  yaw : ℚ
  yawRate : ℚ
deriving DecidableEq

instance : Inhabited Odometry := ⟨⟨0, 0, 0, 0, 0, 0⟩⟩

/-- The predictor object: `__init__` (lines 29–32) stores `dt` and `T`
unchecked and a default odometry message. -/
structure EgoTrajPrediction where
  dt : ℚ
  T : ℚ
  last_odom_msg : Odometry
deriving DecidableEq

/-- Constructor `EgoTrajPrediction(dt, T)` — lines 29–32 of the source:
three plain assignments, no validation of `dt` or `T` of any kind. -/
def EgoTrajPrediction.init (dt T : ℚ) : EgoTrajPrediction :=
  ⟨dt, T, default⟩

/-- The propagation loop shared verbatim by both models (lines 84–94 and
138–175): starting from `t = 0`, while `t <= T` apply the per-step transition
to the accumulator, emit the result, and increment `t` by the literal
constant `0.1` (independent of the configured `dt`). -/
def propagate {α : Type} (step : α → α) (T : ℚ) (t : ℚ) (acc : α) : List α :=
  if h : t ≤ T then
    step acc :: propagate step T (t + 0.1) (step acc)
  else []
termination_by (⌊10 * (T - t)⌋ + 1).toNat
decreasing_by
  have e : 10 * (T - (t + 0.1)) = 10 * (T - t) - ((1 : ℤ) : ℚ) := by
    norm_num
    ring
  have h0 : (0 : ℤ) ≤ ⌊10 * (T - t)⌋ := Int.floor_nonneg.2 (by linarith)
  have e2 : ⌊10 * (T - (t + 0.1))⌋ = ⌊10 * (T - t)⌋ - 1 := by
    rw [e, Int.floor_sub_int]
  simp only [e2]
  omega

/-- Acceleration process-noise scale of the CA model, `sa = 0.1` (line 69). -/
def sa : ℚ := 0.1

/-- CA transition matrix `A` (lines 51–60). -/
def caA (dt : ℚ) : Mat 6 :=
  !![1, 0, dt, 0, 1 / 2 * dt ^ 2, 0;
     0, 1, 0, dt, 0, 1 / 2 * dt ^ 2;
     0, 0, 1, 0, dt, 0;
     0, 0, 0, 1, 0, dt;
     0, 0, 0, 0, 1, 0;
     0, 0, 0, 0, 0, 1]

/-- CA process-noise column `G` (line 70). -/
def caG (dt : ℚ) : Matrix (Fin 6) (Fin 1) ℚ :=
  !![1 / 2 * dt ^ 2;
     1 / 2 * dt ^ 2;
     dt;
     dt;
     1;
     1]

/-- CA process noise `Q = G·Gᵗ·sa²` (line 72). -/
def caQ (dt : ℚ) : Mat 6 :=
  sa ^ 2 • (caG dt * Matrix.transpose (caG dt))

/-- One iteration of the CA loop body (lines 86–92): the state is advanced by
`A`, the covariance by `A·P·Aᵗ + Q`. -/
def caStep (dt : ℚ) (p : Vec 6 × Mat 6) : Vec 6 × Mat 6 :=
  (Matrix.mulVec (caA dt) p.1, caA dt * p.2 * Matrix.transpose (caA dt) + caQ dt)

/-- Method `constantAcceleration` (lines 42–99): propagate
`x0 = [xPos, yPos, xVel, yVel, xAcc, yAcc]` and `P0 = 0` from `t = 0` while
`t ≤ T`, returning the list of propagated states and covariances. -/
def EgoTrajPrediction.constantAcceleration (self : EgoTrajPrediction)
    (xPos yPos xVel yVel xAcc yAcc : ℚ) : List (Vec 6) × List (Mat 6) :=
  let x_0 : Vec 6 := ![xPos, yPos, xVel, yVel, xAcc, yAcc]
  let res := propagate (caStep self.dt) self.T 0 (x_0, (0 : Mat 6))
  (res.map Prod.fst, res.map Prod.snd)

/-- CTRV process noise `Q` (lines 113–124): fixed diagonal built from the
assumed physical bounds. -/
def ctrvQ (dt : ℚ) : Mat 5 :=
  let sGPS := 0.5 * 8.8 * dt ^ 2
  let sCourse := 0.1 * dt
  let sVelocity := 8.8 * dt
  let sYaw := 1.0 * dt
  Matrix.diagonal ![sGPS ^ 2, sGPS ^ 2, sCourse ^ 2, sVelocity ^ 2, sYaw ^ 2]

/-- CTRV Jacobian-linearised transition matrix (lines 142–163), recomputed
from the current state `x = [xPos, yPos, yaw, vel, yawRate]` at every step.
`mcos`/`msin` stand for `math.cos`/`math.sin`. -/
def ctrvA (mcos msin : ℚ → ℚ) (dt : ℚ) (x : Vec 5) : Mat 5 :=
  let yaw := x 2
  let vel := x 3
  let yawRate := x 4
  let A13 := vel / yawRate * (-(mcos yaw) + mcos (dt * yawRate + yaw))
  let A14 := 1 / yawRate * (-(msin yaw) + msin (dt * yawRate + yaw))
  let A15 := dt * vel / yawRate * mcos (dt * yawRate + yaw) -
    vel / yawRate ^ 2 * (-(msin yaw) + msin (dt * yawRate + yaw))
  let A23 := vel / yawRate * (-(msin yaw) + msin (dt * yawRate + yaw))
  let A24 := 1 / yawRate * (mcos yaw - mcos (dt * yawRate + yaw))
  let A25 := dt * vel / yawRate * msin (dt * yawRate + yaw) -
    vel / yawRate ^ 2 * (mcos yaw - mcos (dt * yawRate + yaw))
  !![1, 0, A13, A14, A15;
     0, 1, A23, A24, A25;
     0, 0, 1, 0, dt;
     0, 0, 0, 1, 0;
     0, 0, 0, 0, 1]

/-- One iteration of the CTRV loop body (lines 138–175): the Jacobian is
rebuilt from the current state, then the state is advanced by that very
matrix (`x_new = A·x_old`, line 166) and the covariance by `A·P·Aᵗ + Q`. -/
def ctrvStep (mcos msin : ℚ → ℚ) (dt : ℚ) (p : Vec 5 × Mat 5) : Vec 5 × Mat 5 :=
  let A := ctrvA mcos msin dt p.1
  (Matrix.mulVec A p.1, A * p.2 * Matrix.transpose A + ctrvQ dt)

/-- Method `constantTurnRate` (lines 103–180): propagate
`x0 = [xPos, yPos, yaw, vel, yawRate]` and `P0 = 0` from `t = 0` while
`t ≤ T`. -/
def EgoTrajPrediction.constantTurnRate (self : EgoTrajPrediction)
    (mcos msin : ℚ → ℚ) (xPos yPos yaw vel yawRate : ℚ) :
    List (Vec 5) × List (Mat 5) :=
  let x_0 : Vec 5 := ![xPos, yPos, yaw, vel, yawRate]
  let res := propagate (ctrvStep mcos msin self.dt) self.T 0 (x_0, (0 : Mat 5))
  (res.map Prod.fst, res.map Prod.snd)

/-- The model choice made by `run` together with the initial state handed to
the chosen model. -/
inductive ModelChoice where
  | ca (xPos yPos xVel yVel xAcc yAcc : ℚ)
  | ctrv (xPos yPos yaw vel yawRate : ℚ)
deriving DecidableEq

/-- Model-selection rule of `run` (lines 202–211): if `|yawRate| < 0.01` use
the CA model with the accelerations hard-coded to `(0, 0)`; otherwise use the
CTRV model with scalar speed `sqrt(vx² + vy²)`.  The decision is a pure
function of the current sample: no state is read or written.  `msqrt` stands
for `math.sqrt`. -/
def selectModel (msqrt : ℚ → ℚ) (odom : Odometry) : ModelChoice :=
  if |odom.yawRate| < 0.01 then
    ModelChoice.ca odom.x odom.y odom.vx odom.vy 0 0
  else
    ModelChoice.ctrv odom.x odom.y odom.yaw (msqrt (odom.vx ^ 2 + odom.vy ^ 2))
      odom.yawRate

/-- Python's `int(·)` on a rational value: truncation toward zero. -/
def pyInt (q : ℚ) : ℤ :=
  if 0 ≤ q then ⌊q⌋ else ⌈q⌉

/-- NumPy row-wise subtraction of an `a.length × 2` and a `b.length × 2`
array: defined when the row counts agree, or when one of them is `1`
(broadcasting); any other mismatch raises a `ValueError`, modelled as
`none`.  (A zero-row operand against a one-row operand broadcasts to zero
rows, which the `a, [q]` / `[p], b` branches reproduce.) -/
def npSubRows (a b : List (ℚ × ℚ)) : Option (List (ℚ × ℚ)) :=
  if a.length = b.length then
    some (List.zipWith (fun p q => (p.1 - q.1, p.2 - q.2)) a b)
  else
    match a, b with
    | a, [q] => some (a.map fun p => (p.1 - q.1, p.2 - q.2))
    | [p], b => some (b.map fun q => (p.1 - q.1, p.2 - q.2))
    | _, _ => none

/-- Method `predictionValidator` (lines 245–264).  `odom` is the `N×2`
reference log `ODOM`, `counter` the global `VALIDATOR_COUNTER`.  The first
component of the result is the new counter value (incremented unconditionally,
line 263).  The second component models the call's outcome: `some r` when the
call completes and prints metric `r`; `none` when the `try` body raised (the
bare `except` prints `"Index Error"` and leaves the local `RMSE` unassigned,
so the final `print(RMSE)` raises `UnboundLocalError` out of the call).
Exception sources inside the `try`: `states[:, 0:2]` on an empty states
array, and the row-count mismatch in `predicted_states - odometry_states`. -/
def predictionValidator (msqrt : ℚ → ℚ) (dt T : ℚ) (odom : List (ℚ × ℚ))
    (counter : ℕ) {n : ℕ} (states : List (Vec (n + 2))) : ℕ × Option ℚ :=
  let num_predictions : ℤ := pyInt (T / dt)
  let odometry_states := (odom.drop counter).take num_predictions.toNat
  let rmse? : Option ℚ :=
    if states.isEmpty then none
    else
      let predicted_states := states.map fun s => (s 0, s 1)
      match npSubRows predicted_states odometry_states with
      | some diffs =>
          some ((diffs.map fun d => msqrt (d.1 ^ 2 + d.2 ^ 2)).sum /
            (num_predictions : ℚ))
      | none => none
  (counter + 1, rmse?)

/-- Jacobian of the CTRV model as written in the spec (§4.3): entries
`A[0][2] = speed/yawRate·(−cos(yaw) + cos(yaw + dt·yawRate))`,
`A[0][3] = 1/yawRate·(−sin(yaw) + sin(yaw + dt·yawRate))`,
`A[0][4] = dt·speed/yawRate·cos(yaw+dt·yawRate) − speed/yawRate²·(−sin(yaw) + sin(yaw+dt·yawRate))`,
`A[1][2] = speed/yawRate·(−sin(yaw) + sin(yaw + dt·yawRate))`,
`A[1][3] = 1/yawRate·(cos(yaw) − cos(yaw + dt·yawRate))`,
`A[1][4] = dt·speed/yawRate·sin(yaw+dt·yawRate) − speed/yawRate²·(cos(yaw) − cos(yaw+dt·yawRate))`,
`A[2][4] = dt`, diagonal `1`, all other off-diagonal entries `0`.  Written
from the spec text, to be compared against `ctrvA` (which is written from the
source). -/
def ctrvASpec (mcos msin : ℚ → ℚ) (dt : ℚ) (x : Vec 5) : Mat 5 :=
  let yaw := x 2
  let speed := x 3
  let yawRate := x 4
  !![1, 0, speed / yawRate * (-(mcos yaw) + mcos (yaw + dt * yawRate)),
        1 / yawRate * (-(msin yaw) + msin (yaw + dt * yawRate)),
        dt * speed / yawRate * mcos (yaw + dt * yawRate) -
          speed / yawRate ^ 2 * (-(msin yaw) + msin (yaw + dt * yawRate));
     0, 1, speed / yawRate * (-(msin yaw) + msin (yaw + dt * yawRate)),
        1 / yawRate * (mcos yaw - mcos (yaw + dt * yawRate)),
        dt * speed / yawRate * msin (yaw + dt * yawRate) -
          speed / yawRate ^ 2 * (mcos yaw - mcos (yaw + dt * yawRate));
     0, 0, 1, 0, dt;
     0, 0, 0, 1, 0;
     0, 0, 0, 0, 1]

/-- Mean positional error as described by the spec (§4.5 step 4): per-row
Euclidean distance between predicted `(x, y)` and the reference row, averaged
over the `N` rows.  Written from the spec text, to be compared against the
metric computed by `predictionValidator` (which is written from the
source). -/
def specMeanError (msqrt : ℚ → ℚ) (predicted reference : List (ℚ × ℚ))
    (N : ℤ) : ℚ :=
  (List.zipWith (fun p q => msqrt ((p.1 - q.1) ^ 2 + (p.2 - q.2) ^ 2))
    predicted reference).sum / (N : ℚ)

/-- The process-wide state touched by the core operations: the predictor
object, the reference log `ODOM` and the global cursor `VALIDATOR_COUNTER`
(lines 22–23). -/
structure ProcState where
  pred : EgoTrajPrediction
  ODOM : List (ℚ × ℚ)
  VALIDATOR_COUNTER : ℕ
deriving DecidableEq

/-- `constantAcceleration` as an operation on the process state: the method
body (lines 42–99) contains no assignment to `self` or to any global, so it
returns the state unchanged together with its value. -/
def caOp (s : ProcState) (xPos yPos xVel yVel xAcc yAcc : ℚ) :
    ProcState × (List (Vec 6) × List (Mat 6)) :=
  (s, s.pred.constantAcceleration xPos yPos xVel yVel xAcc yAcc)

/-- `constantTurnRate` as an operation on the process state (lines 103–180:
no assignment to `self` or to any global). -/
def ctrvOp (mcos msin : ℚ → ℚ) (s : ProcState)
    (xPos yPos yaw vel yawRate : ℚ) :
    ProcState × (List (Vec 5) × List (Mat 5)) :=
  (s, s.pred.constantTurnRate mcos msin xPos yPos yaw vel yawRate)

/-- `predictionValidator` as an operation on the process state: the only
write is `VALIDATOR_COUNTER += 1` (line 263). -/
def validatorOp (msqrt : ℚ → ℚ) (s : ProcState) {n : ℕ}
    (states : List (Vec (n + 2))) : ProcState × Option ℚ :=
  let r := predictionValidator msqrt s.pred.dt s.pred.T s.ODOM
    s.VALIDATOR_COUNTER states
  (ProcState.mk s.pred s.ODOM r.1, r.2)

/-- The literal `0.1` time increment as a rational. -/
lemma point_one_eq : (0.1 : ℚ) = 1 / 10 := by norm_num

lemma propagate_of_not_le {α : Type} (step : α → α) (T t : ℚ) (acc : α)
    (h : ¬ t ≤ T) : propagate step T t acc = [] := by
  rw [propagate]
  simp [h]

lemma propagate_of_le {α : Type} (step : α → α) (T t : ℚ) (acc : α)
    (h : t ≤ T) :
    propagate step T t acc =
      step acc :: propagate step T (t + 0.1) (step acc) := by
  rw [propagate]
  simp [h]

lemma floor_shift (T t : ℚ) : ⌊10 * (T - (t + 0.1))⌋ = ⌊10 * (T - t)⌋ - 1 := by
  have e : 10 * (T - (t + 0.1)) = 10 * (T - t) - ((1 : ℤ) : ℚ) := by
    norm_num
    ring
  rw [e, Int.floor_sub_int]

lemma propagate_length_aux {α : Type} (step : α → α) (T : ℚ) :
    ∀ (n : ℕ) (t : ℚ) (acc : α), t ≤ T → (⌊10 * (T - t)⌋).toNat = n →
      (propagate step T t acc).length = n + 1 := by
  intro n
  induction n with
  | zero =>
      intro t acc ht hn
      rw [propagate_of_le step T t acc ht]
      have h0 : (0 : ℤ) ≤ ⌊10 * (T - t)⌋ := Int.floor_nonneg.2 (by linarith)
      have hf : ⌊10 * (T - t)⌋ = 0 := by omega
      have hlt : ¬ t + 0.1 ≤ T := by
        intro hc
        have : (1 : ℤ) ≤ ⌊10 * (T - (t + 0.1))⌋ + 1 + 1 - 1 := by
          have h1 : (0 : ℤ) ≤ ⌊10 * (T - (t + 0.1))⌋ :=
            Int.floor_nonneg.2 (by linarith)
          omega
        have h2 : ⌊10 * (T - (t + 0.1))⌋ = -1 := by
          rw [floor_shift]
          omega
        have h1 : (0 : ℤ) ≤ ⌊10 * (T - (t + 0.1))⌋ :=
          Int.floor_nonneg.2 (by linarith)
        omega
      rw [propagate_of_not_le step T _ _ hlt]
      simp
  | succ k ih =>
      intro t acc ht hn
      rw [propagate_of_le step T t acc ht]
      have h0 : (0 : ℤ) ≤ ⌊10 * (T - t)⌋ := Int.floor_nonneg.2 (by linarith)
      have hf : ⌊10 * (T - t)⌋ = (k : ℤ) + 1 := by omega
      have hnext : (1 : ℚ) / 10 ≤ T - t := by
        by_contra hc
        push_neg at hc
        have : ⌊10 * (T - t)⌋ < 1 := by
          apply Int.floor_lt.2
          push_cast
          linarith
        omega
      have ht2 : t + 0.1 ≤ T := by
        rw [point_one_eq]
        linarith
      have hk : (⌊10 * (T - (t + 0.1))⌋).toNat = k := by
        rw [floor_shift]
        omega
      have := ih (t + 0.1) (step acc) ht2 hk
      simp [this]

/-- Length of the propagation loop's output: `⌊10·(T − t)⌋ + 1` entries when
`t ≤ T` at entry (the loop increments `t` by the literal `0.1`). -/
lemma propagate_length {α : Type} (step : α → α) (T t : ℚ) (acc : α)
    (ht : t ≤ T) :
    (propagate step T t acc).length = (⌊10 * (T - t)⌋ + 1).toNat := by
  have h0 : (0 : ℤ) ≤ ⌊10 * (T - t)⌋ := Int.floor_nonneg.2 (by linarith)
  have := propagate_length_aux step T (⌊10 * (T - t)⌋).toNat t acc ht rfl
  rw [this]
  omega

/-- Element `i` of the loop's output is the `(i+1)`-st iterate of the step
function on the initial accumulator. -/
lemma propagate_get {α : Type} (step : α → α) (T : ℚ) :
    ∀ (i : ℕ) (t : ℚ) (acc : α) (h : i < (propagate step T t acc).length),
      (propagate step T t acc).get ⟨i, h⟩ = step^[i + 1] acc := by
  intro i
  induction i with
  | zero =>
      intro t acc h
      by_cases ht : t ≤ T
      · rw [List.get_of_eq (propagate_of_le step T t acc ht) ⟨0, h⟩]
        simp
      · rw [propagate_of_not_le step T t acc ht] at h
        simp at h
  | succ k ih =>
      intro t acc h
      by_cases ht : t ≤ T
      · rw [List.get_of_eq (propagate_of_le step T t acc ht) ⟨k + 1, h⟩]
        have h2 : k + 1 < (step acc :: propagate step T (t + 0.1) (step acc)).length := by
          rw [← propagate_of_le step T t acc ht]
          exact h
        have hk : k < (propagate step T (t + 0.1) (step acc)).length := by
          simpa using h2
        have e2 : (step acc :: propagate step T (t + 0.1) (step acc)).get
            ⟨k + 1, h2⟩ = (propagate step T (t + 0.1) (step acc)).get ⟨k, hk⟩ :=
          List.get_cons_succ
        rw [e2, ih (t + 0.1) (step acc) hk,
          ← Function.iterate_succ_apply step (k + 1) acc]
      · rw [propagate_of_not_le step T t acc ht] at h
        simp at h

lemma v6_0 {α : Type} (a b c d e f : α) : ![a, b, c, d, e, f] (0 : Fin 6) = a := rfl

lemma v6_1 {α : Type} (a b c d e f : α) : ![a, b, c, d, e, f] (1 : Fin 6) = b := rfl

lemma v6_2 {α : Type} (a b c d e f : α) : ![a, b, c, d, e, f] (2 : Fin 6) = c := rfl

lemma v6_3 {α : Type} (a b c d e f : α) : ![a, b, c, d, e, f] (3 : Fin 6) = d := rfl

lemma v6_4 {α : Type} (a b c d e f : α) : ![a, b, c, d, e, f] (4 : Fin 6) = e := rfl

lemma v6_5 {α : Type} (a b c d e f : α) : ![a, b, c, d, e, f] (5 : Fin 6) = f := rfl

lemma v5_0 {α : Type} (a b c d e : α) : ![a, b, c, d, e] (0 : Fin 5) = a := rfl

lemma v5_1 {α : Type} (a b c d e : α) : ![a, b, c, d, e] (1 : Fin 5) = b := rfl

lemma v5_2 {α : Type} (a b c d e : α) : ![a, b, c, d, e] (2 : Fin 5) = c := rfl

lemma v5_3 {α : Type} (a b c d e : α) : ![a, b, c, d, e] (3 : Fin 5) = d := rfl

lemma v5_4 {α : Type} (a b c d e : α) : ![a, b, c, d, e] (4 : Fin 5) = e := rfl

lemma v1_0 {α : Type} (a : α) : ![a] (0 : Fin 1) = a := rfl

lemma m6_0 {α : Type} (a b c d e f : α) (h : 0 < 6) :
    ![a, b, c, d, e, f] (⟨0, h⟩ : Fin 6) = a := rfl

lemma m6_1 {α : Type} (a b c d e f : α) (h : 1 < 6) :
    ![a, b, c, d, e, f] (⟨1, h⟩ : Fin 6) = b := rfl

lemma m6_2 {α : Type} (a b c d e f : α) (h : 2 < 6) :
    ![a, b, c, d, e, f] (⟨2, h⟩ : Fin 6) = c := rfl

lemma m6_3 {α : Type} (a b c d e f : α) (h : 3 < 6) :
    ![a, b, c, d, e, f] (⟨3, h⟩ : Fin 6) = d := rfl

lemma m6_4 {α : Type} (a b c d e f : α) (h : 4 < 6) :
    ![a, b, c, d, e, f] (⟨4, h⟩ : Fin 6) = e := rfl

lemma m6_5 {α : Type} (a b c d e f : α) (h : 5 < 6) :
    ![a, b, c, d, e, f] (⟨5, h⟩ : Fin 6) = f := rfl

lemma m5_0 {α : Type} (a b c d e : α) (h : 0 < 5) :
    ![a, b, c, d, e] (⟨0, h⟩ : Fin 5) = a := rfl

lemma m5_1 {α : Type} (a b c d e : α) (h : 1 < 5) :
    ![a, b, c, d, e] (⟨1, h⟩ : Fin 5) = b := rfl

lemma m5_2 {α : Type} (a b c d e : α) (h : 2 < 5) :
    ![a, b, c, d, e] (⟨2, h⟩ : Fin 5) = c := rfl

lemma m5_3 {α : Type} (a b c d e : α) (h : 3 < 5) :
    ![a, b, c, d, e] (⟨3, h⟩ : Fin 5) = d := rfl

lemma m5_4 {α : Type} (a b c d e : α) (h : 4 < 5) :
    ![a, b, c, d, e] (⟨4, h⟩ : Fin 5) = e := rfl

lemma m1_0 {α : Type} (a : α) (h : 0 < 1) : ![a] (⟨0, h⟩ : Fin 1) = a := rfl

lemma horizon_steps (T : ℚ) : ⌊10 * (T - 0)⌋ = ⌊T / (0.1 : ℚ)⌋ := by
  have e : 10 * (T - 0) = T / (0.1 : ℚ) := by
    rw [point_one_eq]
    ring
  rw [e]

/-- C2: for every configured `dt > 0` and `T > 0`, each model emits exactly
`⌊T / 0.1⌋ + 1` state/covariance pairs — the loop counter advances by the
literal constant `0.1` regardless of `dt` (lines 94 and 175).  The hypothesis
`yawRate ≠ 0` is needed for the CTRV half because in the Python source a zero
yaw rate raises `ZeroDivisionError` inside the loop instead of producing a
sequence; the rational embedding totalises that division. -/
theorem C2_step_count (self : EgoTrajPrediction) (mcos msin : ℚ → ℚ)
    (xPos yPos xVel yVel xAcc yAcc yaw vel yawRate : ℚ)
    (hdt : 0 < self.dt) (hT : 0 < self.T) (hyr : yawRate ≠ 0) :
    ((self.constantAcceleration xPos yPos xVel yVel xAcc yAcc).1.length
        = (⌊self.T / (0.1 : ℚ)⌋ + 1).toNat
      ∧ (self.constantAcceleration xPos yPos xVel yVel xAcc yAcc).2.length
        = (⌊self.T / (0.1 : ℚ)⌋ + 1).toNat)
    ∧ ((self.constantTurnRate mcos msin xPos yPos yaw vel yawRate).1.length
        = (⌊self.T / (0.1 : ℚ)⌋ + 1).toNat
      ∧ (self.constantTurnRate mcos msin xPos yPos yaw vel yawRate).2.length
        = (⌊self.T / (0.1 : ℚ)⌋ + 1).toNat) := by
  have h0T : (0 : ℚ) ≤ self.T := le_of_lt hT
  constructor
  · constructor
    · show (List.map Prod.fst _).length = _
      rw [List.length_map, propagate_length _ _ _ _ h0T, horizon_steps]
    · show (List.map Prod.snd _).length = _
      rw [List.length_map, propagate_length _ _ _ _ h0T, horizon_steps]
  · constructor
    · show (List.map Prod.fst _).length = _
      rw [List.length_map, propagate_length _ _ _ _ h0T, horizon_steps]
    · show (List.map Prod.snd _).length = _
      rw [List.length_map, propagate_length _ _ _ _ h0T, horizon_steps]

/-- C2 witness at the canonical configuration `dt = 0.1`, `T = 3`:
31 propagated pairs. -/
theorem C2_step_count_witness :
    ((EgoTrajPrediction.init (0.1 : ℚ) 3).constantAcceleration
      0 0 10 0 0 0).1.length = 31
    ∧ ((EgoTrajPrediction.init (0.1 : ℚ) 3).constantTurnRate
      (fun _ => 1) (fun _ => 0) 0 0 0 10 1).1.length = 31 := by
  have h := C2_step_count (EgoTrajPrediction.init (0.1 : ℚ) 3)
    (fun _ => 1) (fun _ => 0) 0 0 10 0 0 0 0 10 1
    (by norm_num [EgoTrajPrediction.init]) (by norm_num [EgoTrajPrediction.init])
    (by norm_num)
  have e31 : (⌊(EgoTrajPrediction.init (0.1 : ℚ) 3).T / (0.1 : ℚ)⌋ + 1).toNat = 31 := by
    have : ⌊(3 : ℚ) / (0.1 : ℚ)⌋ = 30 := by norm_num
    show (⌊(3 : ℚ) / (0.1 : ℚ)⌋ + 1).toNat = 31
    omega
  exact ⟨h.1.1.trans e31, h.2.1.trans e31⟩

/-- The state half of the CA iteration in closed form when both acceleration
components are zero: constant-velocity extrapolation. -/
lemma caStep_iterate_state (dt x y vx vy : ℚ) (P : Mat 6) (k : ℕ) :
    ((caStep dt)^[k] (![x, y, vx, vy, 0, 0], P)).1 =
      ![x + (k : ℚ) * dt * vx, y + (k : ℚ) * dt * vy, vx, vy, 0, 0] := by
  induction k with
  | zero =>
      funext i
      fin_cases i <;> simp
  | succ k ih =>
      rw [Function.iterate_succ_apply']
      have h1 : (caStep dt ((caStep dt)^[k] (![x, y, vx, vy, 0, 0], P))).1 =
          Matrix.mulVec (caA dt) (((caStep dt)^[k] (![x, y, vx, vy, 0, 0], P)).1) :=
        rfl
      rw [h1, ih]
      show Matrix.mulVec (caA dt) _ = _
      simp only [caA, Matrix.cons_mulVec, Matrix.cons_dotProduct,
        Matrix.dotProduct_empty, Matrix.head_cons, Matrix.tail_cons,
        Matrix.empty_mulVec]
      funext i
      fin_cases i <;> simp <;> push_cast <;> ring

/-- C3: with zero initial acceleration components, the CA model is exact
constant-velocity extrapolation: the `(i+1)`-st propagated state (stored at
list index `i`; the output sequence starts with the first propagated step,
not the initial state) has `x = x₀ + (i+1)·dt·vx₀`, `y = y₀ + (i+1)·dt·vy₀`,
and carries `vx`, `vy` unchanged and both accelerations still zero.  Exact
over `ℚ`, hence inside any floating-point tolerance. -/
theorem C3_ca_zero_acceleration (self : EgoTrajPrediction)
    (x0 y0 vx vy : ℚ) (i : ℕ)
    (h : i < (self.constantAcceleration x0 y0 vx vy 0 0).1.length) :
    (self.constantAcceleration x0 y0 vx vy 0 0).1.get ⟨i, h⟩ =
      ![x0 + ((i : ℚ) + 1) * self.dt * vx, y0 + ((i : ℚ) + 1) * self.dt * vy,
        vx, vy, 0, 0] := by
  have hres : i < (propagate (caStep self.dt) self.T 0
      (![x0, y0, vx, vy, 0, 0], (0 : Mat 6))).length := by
    simpa [EgoTrajPrediction.constantAcceleration] using h
  have hmap : (self.constantAcceleration x0 y0 vx vy 0 0).1.get ⟨i, h⟩ =
      ((propagate (caStep self.dt) self.T 0
        (![x0, y0, vx, vy, 0, 0], (0 : Mat 6))).get ⟨i, hres⟩).1 := by
    show (List.map Prod.fst _).get ⟨i, h⟩ = _
    rw [List.get_map]
  rw [hmap, propagate_get, caStep_iterate_state]
  push_cast
  rfl

/-- C3 witness: `dt = 1/2`, `T = 1/5` (three propagated steps), initial state
`(x, y, vx, vy) = (1, 2, 4, 6)`, index `i = 1`: the second propagated state is
`(1 + 2·(1/2)·4, 2 + 2·(1/2)·6, 4, 6, 0, 0) = (5, 8, 4, 6, 0, 0)`. -/
theorem C3_ca_zero_acceleration_witness :
    ((EgoTrajPrediction.init (1/2 : ℚ) (1/5)).constantAcceleration
      1 2 4 6 0 0).1.get? 1 = some ![5, 8, 4, 6, 0, 0] := by
  have hlen : ((EgoTrajPrediction.init (1/2 : ℚ) (1/5)).constantAcceleration
      1 2 4 6 0 0).1.length = 3 := by
    show (List.map Prod.fst _).length = _
    rw [List.length_map, propagate_length _ _ _ _ (by norm_num [EgoTrajPrediction.init])]
    have : ⌊10 * ((EgoTrajPrediction.init (1/2 : ℚ) (1/5)).T - 0)⌋ = 2 := by
      norm_num [EgoTrajPrediction.init]
    omega
  have h : 1 < ((EgoTrajPrediction.init (1/2 : ℚ) (1/5)).constantAcceleration
      1 2 4 6 0 0).1.length := by omega
  rw [List.get?_eq_get h,
    C3_ca_zero_acceleration (EgoTrajPrediction.init (1/2 : ℚ) (1/5)) 1 2 4 6 1 h]
  congr 1
  funext j
  fin_cases j <;> norm_num [EgoTrajPrediction.init]

/-- C6: the model selector of `run` (lines 205–211) is a pure, stateless
function of the incoming sample: it picks CA with accelerations `(0, 0)`
exactly when `|yawRate| < 0.01`, and otherwise CTRV with scalar speed
`sqrt(vx² + vy²)`. -/
theorem C6_model_selection (msqrt : ℚ → ℚ) (odom : Odometry) :
    (|odom.yawRate| < 0.01 →
      selectModel msqrt odom = ModelChoice.ca odom.x odom.y odom.vx odom.vy 0 0)
    ∧ (0.01 ≤ |odom.yawRate| →
      selectModel msqrt odom = ModelChoice.ctrv odom.x odom.y odom.yaw
        (msqrt (odom.vx ^ 2 + odom.vy ^ 2)) odom.yawRate)
    ∧ (selectModel msqrt odom = ModelChoice.ca odom.x odom.y odom.vx odom.vy 0 0
        ↔ |odom.yawRate| < 0.01) := by
  refine ⟨fun hlt => ?_, fun hge => ?_, ?_⟩
  · simp [selectModel, hlt]
  · simp [selectModel, not_lt.2 hge]
  · constructor
    · intro hca
      by_contra hge
      push_neg at hge
      simp [selectModel, not_lt.2 hge] at hca
    · intro hlt
      simp [selectModel, hlt]

/-- C6 witness at two concrete samples, one on each side of the threshold. -/
theorem C6_model_selection_witness :
    selectModel id ⟨1, 2, 3, 4, 5, 1/200⟩ = ModelChoice.ca 1 2 3 4 0 0
    ∧ selectModel id ⟨1, 2, 3, 4, 5, 2⟩ = ModelChoice.ctrv 1 2 5 (id ((3:ℚ)^2 + 4^2)) 2 := by
  constructor
  · exact (C6_model_selection id ⟨1, 2, 3, 4, 5, 1/200⟩).1 (by norm_num [abs_of_pos])
  · exact (C6_model_selection id ⟨1, 2, 3, 4, 5, 2⟩).2.1 (by norm_num [abs_of_pos])

/-- C4: at every CTRV propagation step the mean state is advanced by
multiplying the current state with the Jacobian-linearised matrix `A` itself
(`x_new = np.matmul(A, x_old)`, line 166 — not an exact nonlinear update),
the covariance step uses the very same matrix, `A` is recomputed from the
current state at each step (lines 142–163), and that matrix agrees entrywise
with the matrix displayed in the spec (`ctrvASpec`).  `yawRate ≠ 0` reflects
that Python would raise `ZeroDivisionError` when building `A` otherwise. -/
theorem C4_ctrv_jacobian_update (self : EgoTrajPrediction) (mcos msin : ℚ → ℚ)
    (xPos yPos yaw vel yawRate : ℚ) (hyr : yawRate ≠ 0) :
    (∀ (i : ℕ)
      (h1 : i < (self.constantTurnRate mcos msin xPos yPos yaw vel yawRate).1.length),
      (self.constantTurnRate mcos msin xPos yPos yaw vel yawRate).1.get ⟨i, h1⟩ =
        Matrix.mulVec
          (ctrvA mcos msin self.dt
            (((ctrvStep mcos msin self.dt)^[i]
              (![xPos, yPos, yaw, vel, yawRate], (0 : Mat 5))).1))
          (((ctrvStep mcos msin self.dt)^[i]
            (![xPos, yPos, yaw, vel, yawRate], (0 : Mat 5))).1))
    ∧ (∀ (i : ℕ)
      (h2 : i < (self.constantTurnRate mcos msin xPos yPos yaw vel yawRate).2.length),
      (self.constantTurnRate mcos msin xPos yPos yaw vel yawRate).2.get ⟨i, h2⟩ =
        ctrvA mcos msin self.dt
            (((ctrvStep mcos msin self.dt)^[i]
              (![xPos, yPos, yaw, vel, yawRate], (0 : Mat 5))).1) *
          (((ctrvStep mcos msin self.dt)^[i]
            (![xPos, yPos, yaw, vel, yawRate], (0 : Mat 5))).2) *
          Matrix.transpose (ctrvA mcos msin self.dt
            (((ctrvStep mcos msin self.dt)^[i]
              (![xPos, yPos, yaw, vel, yawRate], (0 : Mat 5))).1)) +
          ctrvQ self.dt)
    ∧ ∀ (d : ℚ) (x : Vec 5), ctrvA mcos msin d x = ctrvASpec mcos msin d x := by
  refine ⟨fun i h1 => ?_, fun i h2 => ?_, fun d x => ?_⟩
  · have hres : i < (propagate (ctrvStep mcos msin self.dt) self.T 0
        (![xPos, yPos, yaw, vel, yawRate], (0 : Mat 5))).length := by
      simpa [EgoTrajPrediction.constantTurnRate] using h1
    have hmap : (self.constantTurnRate mcos msin xPos yPos yaw vel yawRate).1.get
        ⟨i, h1⟩ = ((propagate (ctrvStep mcos msin self.dt) self.T 0
          (![xPos, yPos, yaw, vel, yawRate], (0 : Mat 5))).get ⟨i, hres⟩).1 := by
      show (List.map Prod.fst _).get ⟨i, h1⟩ = _
      rw [List.get_map]
    rw [hmap, propagate_get, Function.iterate_succ_apply']
    rfl
  · have hres : i < (propagate (ctrvStep mcos msin self.dt) self.T 0
        (![xPos, yPos, yaw, vel, yawRate], (0 : Mat 5))).length := by
      simpa [EgoTrajPrediction.constantTurnRate] using h2
    have hmap : (self.constantTurnRate mcos msin xPos yPos yaw vel yawRate).2.get
        ⟨i, h2⟩ = ((propagate (ctrvStep mcos msin self.dt) self.T 0
          (![xPos, yPos, yaw, vel, yawRate], (0 : Mat 5))).get ⟨i, hres⟩).2 := by
      show (List.map Prod.snd _).get ⟨i, h2⟩ = _
      rw [List.get_map]
    rw [hmap, propagate_get, Function.iterate_succ_apply']
    rfl
  · have e : d * x 4 + x 2 = x 2 + d * x 4 := by ring
    funext i j
    fin_cases i <;> fin_cases j <;> simp [ctrvA, ctrvASpec, e]

/-- C4 witness: `dt = 1`, `T = 0` (one step), initial CTRV state
`(0, 0, 0, 10, 1)`, with the abstract trig instantiated at
`mcos = const 1`, `msin = const 0`: the single propagated state is
`A·x₀ = (10, 0, 1, 10, 1)` and the single covariance is
`A·0·Aᵗ + Q = Q`. -/
theorem C4_ctrv_jacobian_update_witness :
    ((EgoTrajPrediction.init 1 0).constantTurnRate (fun _ => 1) (fun _ => 0)
      0 0 0 10 1).1.get? 0 = some ![10, 0, 1, 10, 1]
    ∧ ((EgoTrajPrediction.init 1 0).constantTurnRate (fun _ => 1) (fun _ => 0)
      0 0 0 10 1).2.get? 0 = some (ctrvQ 1)
    ∧ ctrvA (fun _ => 1) (fun _ => 0) 1 ![0, 0, 0, 10, 1] =
      ctrvASpec (fun _ => 1) (fun _ => 0) 1 ![0, 0, 0, 10, 1] := by
  have hthm := C4_ctrv_jacobian_update (EgoTrajPrediction.init 1 0)
    (fun _ => 1) (fun _ => 0) 0 0 0 10 1 (by norm_num)
  have hfloor : ⌊10 * ((EgoTrajPrediction.init (1 : ℚ) 0).T - 0)⌋ = 0 := by
    norm_num [EgoTrajPrediction.init]
  have hlen1 : ((EgoTrajPrediction.init 1 0).constantTurnRate (fun _ => 1)
      (fun _ => 0) 0 0 0 10 1).1.length = 1 := by
    show (List.map Prod.fst _).length = _
    rw [List.length_map, propagate_length _ _ _ _ (by norm_num [EgoTrajPrediction.init])]
    omega
  have hlen2 : ((EgoTrajPrediction.init 1 0).constantTurnRate (fun _ => 1)
      (fun _ => 0) 0 0 0 10 1).2.length = 1 := by
    show (List.map Prod.snd _).length = _
    rw [List.length_map, propagate_length _ _ _ _ (by norm_num [EgoTrajPrediction.init])]
    omega
  have h1 : 0 < ((EgoTrajPrediction.init 1 0).constantTurnRate (fun _ => 1)
      (fun _ => 0) 0 0 0 10 1).1.length := by omega
  have h2 : 0 < ((EgoTrajPrediction.init 1 0).constantTurnRate (fun _ => 1)
      (fun _ => 0) 0 0 0 10 1).2.length := by omega
  refine ⟨?_, ?_, hthm.2.2 1 ![0, 0, 0, 10, 1]⟩
  · rw [List.get?_eq_get h1, hthm.1 0 h1]
    simp only [Function.iterate_zero_apply]
    congr 1
    simp only [ctrvA, EgoTrajPrediction.init, Matrix.cons_mulVec,
      Matrix.cons_dotProduct, Matrix.dotProduct_empty, Matrix.head_cons,
      Matrix.tail_cons, Matrix.empty_mulVec, v5_2, v5_3, v5_4]
    funext j
    fin_cases j <;> norm_num
  · rw [List.get?_eq_get h2, hthm.2.1 0 h2]
    simp only [Function.iterate_zero_apply]
    congr 1
    show _ * (0 : Mat 5) * _ + ctrvQ (EgoTrajPrediction.init (1 : ℚ) 0).dt = ctrvQ 1
    rw [Matrix.mul_zero, Matrix.zero_mul, zero_add]
    rfl

lemma npSubRows_eq_none (a b : List (ℚ × ℚ)) (hab : a.length ≠ b.length)
    (hb : b.length ≠ 1) (ha : a.length ≠ 1) : npSubRows a b = none := by
  unfold npSubRows
  rw [if_neg hab]
  cases a with
  | nil =>
      cases b with
      | nil => simp at hab
      | cons q qs =>
          cases qs with
          | nil => simp at hb
          | cons q2 qs2 => rfl
  | cons p ps =>
      cases ps with
      | nil => simp at ha
      | cons p2 ps2 =>
          cases b with
          | nil => rfl
          | cons q qs =>
              cases qs with
              | nil => simp at hb
              | cons q2 qs2 => rfl

lemma isEmpty_false_of_ne_nil {α : Type} (l : List α) (h : l ≠ []) :
    l.isEmpty = false := by
  cases l with
  | nil => exact absurd rfl h
  | cons a as => rfl

/-- The validator outcome on the success path: when no exception occurs
(states non-empty, row counts equal), the printed metric is the summed
per-row distance divided by `num_predictions`. -/
lemma predictionValidator_success (msqrt : ℚ → ℚ) (dt T : ℚ)
    (odom : List (ℚ × ℚ)) (counter : ℕ) {n : ℕ} (states : List (Vec (n + 2)))
    (hne : states ≠ [])
    (heq : (states.map fun s => (s 0, s 1)).length =
      ((odom.drop counter).take (pyInt (T / dt)).toNat).length) :
    (predictionValidator msqrt dt T odom counter states).2 =
      some (((List.zipWith (fun p q => (p.1 - q.1, p.2 - q.2))
          (states.map fun s => (s 0, s 1))
          ((odom.drop counter).take (pyInt (T / dt)).toNat)).map
        fun d => msqrt (d.1 ^ 2 + d.2 ^ 2)).sum / ((pyInt (T / dt) : ℤ) : ℚ)) := by
  unfold predictionValidator
  simp only [isEmpty_false_of_ne_nil states hne, Bool.false_eq_true, if_false]
  unfold npSubRows
  rw [if_pos heq]

lemma zip_self_dist_sum (msqrt : ℚ → ℚ) (h0 : msqrt 0 = 0)
    (l : List (ℚ × ℚ)) :
    (List.zipWith (fun p q => msqrt ((p.1 - q.1) ^ 2 + (p.2 - q.2) ^ 2))
      l l).sum = 0 := by
  induction l with
  | nil => simp
  | cons a as ih => simp [ih, sub_self, h0]

/-- C8: on the success path the validator's reported metric is exactly the
spec's mean positional error — the mean over the `N = int(T/dt)` rows of the
per-row Euclidean distances between the predicted `(x, y)` positions and the
reference-log slice `[cursor, cursor + N)` — and in particular the metric is
exactly `0` whenever the predicted positions coincide with the slice.
Hypotheses: positive `dt` (Python raises on `dt = 0` and the spec requires
`dt > 0`), a positive row count, a prediction of exactly `N` rows and a
reference log with at least `N` rows left past the cursor — precisely the
conditions under which the source's `try` body completes. -/
theorem C8_validator_mean_error (msqrt : ℚ → ℚ) (dt T : ℚ)
    (odom : List (ℚ × ℚ)) (counter : ℕ) {n : ℕ} (states : List (Vec (n + 2)))
    (hdt : 0 < dt)
    (hN : 0 < pyInt (T / dt))
    (hstates : states.length = (pyInt (T / dt)).toNat)
    (hslice : (pyInt (T / dt)).toNat ≤ (odom.drop counter).length) :
    (predictionValidator msqrt dt T odom counter states).2 =
      some (specMeanError msqrt (states.map fun s => (s 0, s 1))
        ((odom.drop counter).take (pyInt (T / dt)).toNat) (pyInt (T / dt)))
    ∧ ((states.map fun s => (s 0, s 1)) =
          (odom.drop counter).take (pyInt (T / dt)).toNat →
        msqrt 0 = 0 →
        (predictionValidator msqrt dt T odom counter states).2 = some 0) := by
  have htoNat : 0 < (pyInt (T / dt)).toNat := by omega
  have hne : states ≠ [] := by
    intro hcon
    rw [hcon] at hstates
    simp at hstates
    omega
  have hlen_slice : ((odom.drop counter).take (pyInt (T / dt)).toNat).length =
      (pyInt (T / dt)).toNat := by
    rw [List.length_take]
    omega
  have heq : (states.map fun s => (s 0, s 1)).length =
      ((odom.drop counter).take (pyInt (T / dt)).toNat).length := by
    rw [List.length_map, hstates, hlen_slice]
  have hsucc := predictionValidator_success msqrt dt T odom counter states hne heq
  have hmean : (predictionValidator msqrt dt T odom counter states).2 =
      some (specMeanError msqrt (states.map fun s => (s 0, s 1))
        ((odom.drop counter).take (pyInt (T / dt)).toNat) (pyInt (T / dt))) := by
    rw [hsucc]
    unfold specMeanError
    rw [List.map_zipWith]
  refine ⟨hmean, fun hzero h0 => ?_⟩
  rw [hmean]
  unfold specMeanError
  rw [hzero, zip_self_dist_sum msqrt h0, zero_div]

/-- C8 witness: `dt = 1`, `T = 2` (so `N = 2`), cursor `0`, reference log
`[(0,0), (3,4), (9,9)]`, with `msqrt = id`.  A prediction sitting at the
origin twice gives metric `(0 + 25)/2`; a prediction equal to the slice gives
metric `0`. -/
theorem C8_validator_mean_error_witness :
    (predictionValidator id 1 2 [((0 : ℚ), (0 : ℚ)), (3, 4), (9, 9)] 0
      [(![0, 0, 0, 0, 0, 0] : Vec 6), ![0, 0, 0, 0, 0, 0]]).2 = some (25 / 2)
    ∧ (predictionValidator id 1 2 [((0 : ℚ), (0 : ℚ)), (3, 4), (9, 9)] 0
      [(![0, 0, 0, 0, 0, 0] : Vec 6), ![3, 4, 0, 0, 0, 0]]).2 = some 0 := by
  have hpy : pyInt ((2 : ℚ) / 1) = 2 := by
    unfold pyInt
    rw [if_pos (by norm_num)]
    norm_num
  constructor
  · have h := (C8_validator_mean_error id 1 2 [((0 : ℚ), (0 : ℚ)), (3, 4), (9, 9)] 0
        [(![0, 0, 0, 0, 0, 0] : Vec 6), ![0, 0, 0, 0, 0, 0]]
        (by norm_num) (by rw [hpy]; norm_num) (by rw [hpy]; rfl)
        (by rw [hpy]; simp)).1
    rw [h]
    unfold specMeanError
    rw [hpy, show ((2 : ℤ)).toNat = 2 from rfl]
    norm_num [v6_0, v6_1, List.take_succ_cons, List.zipWith_cons_cons]
  · exact (C8_validator_mean_error id 1 2 [((0 : ℚ), (0 : ℚ)), (3, 4), (9, 9)] 0
        [(![0, 0, 0, 0, 0, 0] : Vec 6), ![3, 4, 0, 0, 0, 0]]
        (by norm_num) (by rw [hpy]; norm_num) (by rw [hpy]; rfl)
        (by rw [hpy]; simp)).2
      (by rw [hpy]; simp [v6_0, v6_1]) rfl

/-- C1 (code-bug evaluation): at the canonical configuration `dt = 0.1`,
`T = 3` the prediction has 31 rows while `num_predictions = int(T/dt) = 30`;
with the log exhausted down to 20 remaining rows the slice is shorter still.
The row-count mismatch raises inside the `try`, the bare `except` prints
`"Index Error"` and leaves the local `RMSE` unassigned, and the final
`print(RMSE)` then raises `UnboundLocalError` out of the call — modelled as
outcome `none` — after the cursor has advanced to 1.  No distinguished
`InsufficientReferenceData` condition is ever reported and the caller is not
protected from the exception. -/
theorem C1_validator_crashes_on_failure :
    predictionValidator id (0.1 : ℚ) 3 (List.replicate 20 ((0 : ℚ), (0 : ℚ))) 0
      (List.replicate 31 ((fun _ => 0) : Vec 6)) = (1, none) := by
  have hpy : pyInt ((3 : ℚ) / 0.1) = 30 := by
    unfold pyInt
    rw [if_pos (by norm_num)]
    norm_num
  unfold predictionValidator
  rw [hpy]
  have hne : (List.replicate 31 ((fun _ => 0) : Vec 6)) ≠ [] := by simp
  simp only [isEmpty_false_of_ne_nil _ hne, Bool.false_eq_true, if_false]
  rw [npSubRows_eq_none _ _ (by simp) (by simp) (by simp)]

/-- C7: the validator cursor advances by exactly 1 on every call,
unconditionally — `VALIDATOR_COUNTER += 1` (line 263) executes both on the
success path and on the failure path, before the final `print(RMSE)` that
crashes the failed call.  The hypothesis `dt ≠ 0` reflects the one Python
path that never reaches the increment: `int(T/dt)` raises
`ZeroDivisionError` before the `try` block when `dt = 0`. -/
theorem C7_cursor_always_advances (msqrt : ℚ → ℚ) (dt T : ℚ)
    (odom : List (ℚ × ℚ)) (counter : ℕ) {n : ℕ} (states : List (Vec (n + 2)))
    (hdt : dt ≠ 0) :
    (predictionValidator msqrt dt T odom counter states).1 = counter + 1 :=
  rfl

/-- C7 witness: a call with the cursor already past the usable range of a
60-row log still advances the cursor from 50 to 51. -/
theorem C7_cursor_always_advances_witness :
    (predictionValidator id (0.1 : ℚ) 3 (List.replicate 60 ((0 : ℚ), (0 : ℚ)))
      50 (List.replicate 31 ((fun _ => 0) : Vec 6))).1 = 51 :=
  C7_cursor_always_advances id (0.1 : ℚ) 3
    (List.replicate 60 ((0 : ℚ), (0 : ℚ))) 50
    (List.replicate 31 ((fun _ => 0) : Vec 6)) (by norm_num)

/-- C9 (code-bug evaluation): constructing the predictor with `dt = −1 ≤ 0`
is not rejected — `__init__` (lines 29–32) performs no validation at all, no
`ConfigurationError` (or any exception) exists anywhere in the source — and a
prediction then runs on the constructed object: with `T = 1` the CA model
happily produces its 11 propagated states. -/
theorem C9_no_construction_validation :
    (EgoTrajPrediction.init (-1) 1).dt = -1
    ∧ (EgoTrajPrediction.init (-1) 1).T = 1
    ∧ ((EgoTrajPrediction.init (-1) 1).constantAcceleration 0 0 0 0 0 0).1.length
      = 11 := by
  refine ⟨rfl, rfl, ?_⟩
  show (List.map Prod.fst _).length = _
  rw [List.length_map, propagate_length _ _ _ _ (by norm_num [EgoTrajPrediction.init])]
  have : ⌊10 * ((EgoTrajPrediction.init (-1 : ℚ) 1).T - 0)⌋ = 10 := by
    norm_num [EgoTrajPrediction.init]
  omega

/-- C10: the two models are observationally pure — running them leaves the
whole process state (the predictor's `dt`, `T`, `last_odom_msg`, the
reference log and the validator cursor) untouched; `predictionValidator`
touches nothing but the cursor, which it bumps by exactly 1.  (`dt ≠ 0`
covers the one path on which Python would crash before the increment.) -/
theorem C10_frame_conditions (s : ProcState) (mcos msin msqrt : ℚ → ℚ)
    (xPos yPos xVel yVel xAcc yAcc yaw vel yawRate : ℚ) {n : ℕ}
    (states : List (Vec (n + 2))) (hdt : s.pred.dt ≠ 0) :
    (caOp s xPos yPos xVel yVel xAcc yAcc).1 = s
    ∧ (ctrvOp mcos msin s xPos yPos yaw vel yawRate).1 = s
    ∧ (validatorOp msqrt s states).1.pred = s.pred
    ∧ (validatorOp msqrt s states).1.ODOM = s.ODOM
    ∧ (validatorOp msqrt s states).1.VALIDATOR_COUNTER =
        s.VALIDATOR_COUNTER + 1 :=
  ⟨rfl, rfl, rfl, rfl, rfl⟩

/-- C10 witness at a concrete process state. -/
theorem C10_frame_conditions_witness :
    (caOp (ProcState.mk (EgoTrajPrediction.init 1 2) [] 0) 1 2 3 4 5 6).1 =
      ProcState.mk (EgoTrajPrediction.init 1 2) [] 0
    ∧ (validatorOp id (ProcState.mk (EgoTrajPrediction.init 1 2) [] 0)
        ([] : List (Vec 6))).1.VALIDATOR_COUNTER = 1 := by
  have h := C10_frame_conditions (ProcState.mk (EgoTrajPrediction.init 1 2) [] 0)
    id id id 1 2 3 4 5 6 0 0 0 ([] : List (Vec 6)) (by norm_num [EgoTrajPrediction.init])
  exact ⟨h.1, h.2.2.2.2⟩

/-!
Supporting development around claim C5: the covariance recurrence
`P' = A·P·Aᵗ + Q` preserves symmetry and positive-semidefiniteness for both
models (for any abstraction of the trig functions), and for the CA model the
covariance trace is non-decreasing across consecutive steps.  The analogous
trace statement for the CTRV model depends on exact trigonometric
cancellations along the trajectory and is not settled here.
-/

lemma conjTranspose_eq_transpose_rat {m k : ℕ} (A : Matrix (Fin m) (Fin k) ℚ) :
    A.conjTranspose = Matrix.transpose A := by
  ext i j
  simp [Matrix.conjTranspose_apply]

lemma caQ_posSemidef (dt : ℚ) : (caQ dt).PosSemidef := by
  have h : caQ dt = (sa • caG dt) * (sa • caG dt).conjTranspose := by
    rw [conjTranspose_eq_transpose_rat]
    unfold caQ
    rw [Matrix.transpose_smul, Matrix.smul_mul, Matrix.mul_smul, smul_smul, ← sq]
  rw [h]
  exact Matrix.posSemidef_self_mul_conjTranspose _

lemma ctrvQ_posSemidef (dt : ℚ) : (ctrvQ dt).PosSemidef := by
  unfold ctrvQ
  refine Matrix.posSemidef_diagonal_iff.mpr ?_
  intro i
  fin_cases i <;>
    simp only [m5_0, m5_1, m5_2, m5_3, m5_4] <;> positivity

lemma psd_step {k : ℕ} (A Q P : Mat k) (hP : P.PosSemidef) (hQ : Q.PosSemidef) :
    (A * P * Matrix.transpose A + Q).PosSemidef := by
  have h : A * P * Matrix.transpose A = A * P * A.conjTranspose := by
    rw [conjTranspose_eq_transpose_rat]
  rw [h]
  exact (hP.mul_mul_conjTranspose_same A).add hQ

lemma caStep_iterate_psd (dt : ℚ) (p : Vec 6 × Mat 6) (hp : p.2.PosSemidef)
    (k : ℕ) : (((caStep dt)^[k] p).2).PosSemidef := by
  induction k with
  | zero => simpa using hp
  | succ k ih =>
      rw [Function.iterate_succ_apply']
      exact psd_step _ _ _ ih (caQ_posSemidef dt)

lemma ctrvStep_iterate_psd (mcos msin : ℚ → ℚ) (dt : ℚ) (p : Vec 5 × Mat 5)
    (hp : p.2.PosSemidef) (k : ℕ) :
    (((ctrvStep mcos msin dt)^[k] p).2).PosSemidef := by
  induction k with
  | zero => simpa using hp
  | succ k ih =>
      rw [Function.iterate_succ_apply']
      exact psd_step _ _ _ ih (ctrvQ_posSemidef dt)

/-- Every covariance matrix in the CA output sequence is PSD and symmetric
(for any configuration and initial state). -/
lemma ca_cov_psd (self : EgoTrajPrediction)
    (xPos yPos xVel yVel xAcc yAcc : ℚ) (i : ℕ)
    (h : i < (self.constantAcceleration xPos yPos xVel yVel xAcc yAcc).2.length) :
    ((self.constantAcceleration xPos yPos xVel yVel xAcc yAcc).2.get
        ⟨i, h⟩).PosSemidef
    ∧ Matrix.transpose ((self.constantAcceleration xPos yPos xVel yVel
        xAcc yAcc).2.get ⟨i, h⟩) =
      (self.constantAcceleration xPos yPos xVel yVel xAcc yAcc).2.get ⟨i, h⟩ := by
  have hres : i < (propagate (caStep self.dt) self.T 0
      (![xPos, yPos, xVel, yVel, xAcc, yAcc], (0 : Mat 6))).length := by
    simpa [EgoTrajPrediction.constantAcceleration] using h
  have hmap : (self.constantAcceleration xPos yPos xVel yVel xAcc yAcc).2.get
      ⟨i, h⟩ = ((propagate (caStep self.dt) self.T 0
        (![xPos, yPos, xVel, yVel, xAcc, yAcc], (0 : Mat 6))).get ⟨i, hres⟩).2 := by
    show (List.map Prod.snd _).get ⟨i, h⟩ = _
    rw [List.get_map]
  rw [hmap, propagate_get]
  have hpsd := caStep_iterate_psd self.dt
    (![xPos, yPos, xVel, yVel, xAcc, yAcc], (0 : Mat 6))
    Matrix.PosSemidef.zero (i + 1)
  refine ⟨hpsd, ?_⟩
  have := hpsd.1
  rw [← conjTranspose_eq_transpose_rat]
  exact this

/-- Every covariance matrix in the CTRV output sequence is PSD and symmetric
(for any abstraction of the trig functions). -/
lemma ctrv_cov_psd (self : EgoTrajPrediction) (mcos msin : ℚ → ℚ)
    (xPos yPos yaw vel yawRate : ℚ) (i : ℕ)
    (h : i < (self.constantTurnRate mcos msin xPos yPos yaw vel yawRate).2.length) :
    ((self.constantTurnRate mcos msin xPos yPos yaw vel yawRate).2.get
        ⟨i, h⟩).PosSemidef
    ∧ Matrix.transpose ((self.constantTurnRate mcos msin xPos yPos yaw vel
        yawRate).2.get ⟨i, h⟩) =
      (self.constantTurnRate mcos msin xPos yPos yaw vel yawRate).2.get ⟨i, h⟩ := by
  have hres : i < (propagate (ctrvStep mcos msin self.dt) self.T 0
      (![xPos, yPos, yaw, vel, yawRate], (0 : Mat 5))).length := by
    simpa [EgoTrajPrediction.constantTurnRate] using h
  have hmap : (self.constantTurnRate mcos msin xPos yPos yaw vel yawRate).2.get
      ⟨i, h⟩ = ((propagate (ctrvStep mcos msin self.dt) self.T 0
        (![xPos, yPos, yaw, vel, yawRate], (0 : Mat 5))).get ⟨i, hres⟩).2 := by
    show (List.map Prod.snd _).get ⟨i, h⟩ = _
    rw [List.get_map]
  rw [hmap, propagate_get]
  have hpsd := ctrvStep_iterate_psd mcos msin self.dt
    (![xPos, yPos, yaw, vel, yawRate], (0 : Mat 5))
    Matrix.PosSemidef.zero (i + 1)
  refine ⟨hpsd, ?_⟩
  have := hpsd.1
  rw [← conjTranspose_eq_transpose_rat]
  exact this

lemma mul_entries_nonneg {k : ℕ} {A B : Mat k} (hA : ∀ i j, 0 ≤ A i j)
    (hB : ∀ i j, 0 ≤ B i j) : ∀ i j, 0 ≤ (A * B) i j := by
  intro i j
  rw [Matrix.mul_apply]
  exact Finset.sum_nonneg fun k2 _ => mul_nonneg (hA i k2) (hB k2 j)

lemma caA_entries_nonneg (dt : ℚ) (hdt : 0 ≤ dt) : ∀ i j, 0 ≤ caA dt i j := by
  intro i j
  fin_cases i <;> fin_cases j <;>
    simp only [caA, Matrix.of_apply, m6_0, m6_1, m6_2, m6_3, m6_4, m6_5] <;>
    first
      | exact le_refl 0
      | exact zero_le_one
      | exact hdt
      | positivity

lemma caA_diag_one (dt : ℚ) : ∀ i, caA dt i i = 1 := by
  intro i
  fin_cases i <;>
    simp only [caA, Matrix.of_apply, m6_0, m6_1, m6_2, m6_3, m6_4, m6_5]

lemma caG_entries_nonneg (dt : ℚ) (hdt : 0 ≤ dt) :
    ∀ (i : Fin 6) (j : Fin 1), 0 ≤ caG dt i j := by
  intro i j
  fin_cases i <;> fin_cases j <;>
    simp only [caG, Matrix.of_apply, m6_0, m6_1, m6_2, m6_3, m6_4, m6_5, m1_0] <;>
    first
      | exact le_refl 0
      | exact zero_le_one
      | exact hdt
      | positivity

lemma caQ_entries_nonneg (dt : ℚ) (hdt : 0 ≤ dt) : ∀ i j, 0 ≤ caQ dt i j := by
  intro i j
  unfold caQ
  rw [Matrix.smul_apply, Matrix.mul_apply, Fin.sum_univ_one, smul_eq_mul]
  have h1 := caG_entries_nonneg dt hdt i 0
  have h2 := caG_entries_nonneg dt hdt j 0
  have h3 : (0 : ℚ) ≤ sa ^ 2 := by positivity
  exact mul_nonneg h3 (mul_nonneg h1 (by simpa [Matrix.transpose_apply] using h2))

lemma caStep_snd_entries_nonneg (dt : ℚ) (hdt : 0 ≤ dt) (p : Vec 6 × Mat 6)
    (hp : ∀ i j, 0 ≤ p.2 i j) : ∀ i j, 0 ≤ (caStep dt p).2 i j := by
  intro i j
  have hAT : ∀ i2 j2, 0 ≤ Matrix.transpose (caA dt) i2 j2 := fun i2 j2 =>
    caA_entries_nonneg dt hdt j2 i2
  have hm : ∀ i2 j2, 0 ≤ (caA dt * p.2 * Matrix.transpose (caA dt)) i2 j2 :=
    mul_entries_nonneg (mul_entries_nonneg (caA_entries_nonneg dt hdt) hp) hAT
  show 0 ≤ (caA dt * p.2 * Matrix.transpose (caA dt) + caQ dt) i j
  rw [Matrix.add_apply]
  exact add_nonneg (hm i j) (caQ_entries_nonneg dt hdt i j)

lemma caStep_iterate_entries_nonneg (dt : ℚ) (hdt : 0 ≤ dt)
    (p : Vec 6 × Mat 6) (hp : ∀ i j, 0 ≤ p.2 i j) (k : ℕ) :
    ∀ i j, 0 ≤ ((caStep dt)^[k] p).2 i j := by
  induction k with
  | zero => simpa using hp
  | succ k ih =>
      rw [Function.iterate_succ_apply']
      exact caStep_snd_entries_nonneg dt hdt _ ih

lemma trace_nonneg_of_entries {k : ℕ} (Q : Mat k)
    (hQ : ∀ i j, 0 ≤ Q i j) : 0 ≤ Matrix.trace Q := by
  unfold Matrix.trace
  exact Finset.sum_nonneg fun i _ => hQ i i

/-- When the transition matrix has unit diagonal and entrywise-nonnegative
entries, conjugating an entrywise-nonnegative matrix by it cannot decrease
the trace.  (This is the mechanism behind CA trace monotonicity; it does not
apply to the CTRV Jacobian, whose off-diagonal entries change sign.) -/
lemma trace_conj_ge {k : ℕ} (A P : Mat k) (hdiag : ∀ i, A i i = 1)
    (hA : ∀ i j, 0 ≤ A i j) (hP : ∀ i j, 0 ≤ P i j) :
    Matrix.trace P ≤ Matrix.trace (A * P * Matrix.transpose A) := by
  unfold Matrix.trace
  refine Finset.sum_le_sum fun i _ => ?_
  have h2 : Matrix.diag (A * P * Matrix.transpose A) i =
      ∑ k2, (A * P) i k2 * A i k2 := by
    simp [Matrix.diag, Matrix.mul_apply, Matrix.transpose_apply]
  show Matrix.diag P i ≤ Matrix.diag (A * P * Matrix.transpose A) i
  rw [h2]
  have hterm : ∀ k2 : Fin k, 0 ≤ (A * P) i k2 * A i k2 := fun k2 =>
    mul_nonneg (mul_entries_nonneg hA hP i k2) (hA i k2)
  have hsingle : (A * P) i i * A i i ≤ ∑ k2, (A * P) i k2 * A i k2 :=
    Finset.single_le_sum (fun k2 _ => hterm k2) (Finset.mem_univ i)
  have hinner : P i i ≤ (A * P) i i := by
    rw [Matrix.mul_apply]
    have hs : A i i * P i i ≤ ∑ j2, A i j2 * P j2 i :=
      Finset.single_le_sum
        (fun j2 _ => mul_nonneg (hA i j2) (hP j2 i)) (Finset.mem_univ i)
    rw [hdiag i, one_mul] at hs
    exact hs
  calc Matrix.diag P i = P i i := rfl
    _ ≤ (A * P) i i := hinner
    _ = (A * P) i i * A i i := by rw [hdiag i, mul_one]
    _ ≤ ∑ k2, (A * P) i k2 * A i k2 := hsingle

/-- CA trace monotonicity: for a non-negative configured step `dt`, the trace
of the covariance is non-decreasing from each propagated step to the next. -/
lemma ca_trace_monotone (self : EgoTrajPrediction) (hdt : 0 ≤ self.dt)
    (xPos yPos xVel yVel xAcc yAcc : ℚ) (i : ℕ)
    (h1 : i < (self.constantAcceleration xPos yPos xVel yVel xAcc yAcc).2.length)
    (h2 : i + 1 <
      (self.constantAcceleration xPos yPos xVel yVel xAcc yAcc).2.length) :
    Matrix.trace ((self.constantAcceleration xPos yPos xVel yVel
        xAcc yAcc).2.get ⟨i, h1⟩) ≤
      Matrix.trace ((self.constantAcceleration xPos yPos xVel yVel
        xAcc yAcc).2.get ⟨i + 1, h2⟩) := by
  have hres1 : i < (propagate (caStep self.dt) self.T 0
      (![xPos, yPos, xVel, yVel, xAcc, yAcc], (0 : Mat 6))).length := by
    simpa [EgoTrajPrediction.constantAcceleration] using h1
  have hres2 : i + 1 < (propagate (caStep self.dt) self.T 0
      (![xPos, yPos, xVel, yVel, xAcc, yAcc], (0 : Mat 6))).length := by
    simpa [EgoTrajPrediction.constantAcceleration] using h2
  have hmap1 : (self.constantAcceleration xPos yPos xVel yVel xAcc yAcc).2.get
      ⟨i, h1⟩ = ((propagate (caStep self.dt) self.T 0
        (![xPos, yPos, xVel, yVel, xAcc, yAcc], (0 : Mat 6))).get ⟨i, hres1⟩).2 := by
    show (List.map Prod.snd _).get ⟨i, h1⟩ = _
    rw [List.get_map]
  have hmap2 : (self.constantAcceleration xPos yPos xVel yVel xAcc yAcc).2.get
      ⟨i + 1, h2⟩ = ((propagate (caStep self.dt) self.T 0
        (![xPos, yPos, xVel, yVel, xAcc, yAcc], (0 : Mat 6))).get
        ⟨i + 1, hres2⟩).2 := by
    show (List.map Prod.snd _).get ⟨i + 1, h2⟩ = _
    rw [List.get_map]
  rw [hmap1, hmap2, propagate_get, propagate_get]
  have hP : ∀ i2 j2, 0 ≤ ((caStep self.dt)^[i + 1]
      (![xPos, yPos, xVel, yVel, xAcc, yAcc], (0 : Mat 6))).2 i2 j2 :=
    caStep_iterate_entries_nonneg self.dt hdt _ (by simp) (i + 1)
  rw [Function.iterate_succ_apply' (caStep self.dt) (i + 1)]
  have hstep : (caStep self.dt ((caStep self.dt)^[i + 1]
      (![xPos, yPos, xVel, yVel, xAcc, yAcc], (0 : Mat 6)))).2 =
      caA self.dt * ((caStep self.dt)^[i + 1]
        (![xPos, yPos, xVel, yVel, xAcc, yAcc], (0 : Mat 6))).2 *
        Matrix.transpose (caA self.dt) + caQ self.dt := rfl
  rw [hstep, Matrix.trace_add]
  have hconj := trace_conj_ge (caA self.dt)
    (((caStep self.dt)^[i + 1]
      (![xPos, yPos, xVel, yVel, xAcc, yAcc], (0 : Mat 6))).2)
    (caA_diag_one self.dt) (caA_entries_nonneg self.dt hdt) hP
  have hq := trace_nonneg_of_entries (caQ self.dt)
    (caQ_entries_nonneg self.dt hdt)
  linarith

end EgoTraj
